import Mathlib

/-!
Shallow embedding of the method-table generation core of the gdext repository
(src/godot-codegen/src/central_generator.rs and src/godot-codegen/src/util.rs),
plus the NotUniqueError check (src/godot-core/src/builtin/error/not_unique_error.rs).

Generation-time assertion failures (Rust panic/assert) are modelled by Option-valued
generators returning none.  Identifiers built with format_ident are modelled as Strings.
External collaborators (the snake-case conversion, the special-case accessor policy and
the host resolver) are passed as function parameters, as the spec designates them
external to the core.
-/

/-- Codegen level of a class API (util.rs, ClassCodegenLevel). -/
inductive ApiLevel
  | servers
  | scene
  | editor
deriving DecidableEq, BEq, Repr

/-- ClassCodegenLevel::lower (util.rs). -/
def ApiLevel.lower : ApiLevel → String
  | .servers => "servers"
  | .scene => "scene"
  | .editor => "editor"

/-- Lookup key for indexed method tables (util.rs, MethodTableKey). -/
inductive MethodTableKey
  | classMethod (apiLevel : ApiLevel) (classTy : String) (methodName : String)
  | builtinMethod (builtinTy : String) (methodName : String)
deriving DecidableEq, BEq, Repr

/-- MethodTableKey::category (util.rs): independent index namespaces. -/
def MethodTableKey.category : MethodTableKey → String
  | .classMethod level _ _ => "class." ++ level.lower
  | .builtinMethod _ _ => "builtin"

/-- Modelled from the spec: the Index Allocator state (crate::Context with its
method-table index map is not under src/).  Spec 4.1: `allocate(key) -> index`;
first call for a key within its category returns 0, subsequent distinct keys in the
same category receive the next unused integer, repeated calls with an equal key
return the same index, and categories are fully independent. -/
structure Context where
  assigned : List (MethodTableKey × Nat)
deriving DecidableEq, Repr

/-- Modelled from the spec: ctx.get_table_index (spec 4.1 Index Allocator contract). -/
def Context.getTableIndex (ctx : Context) (key : MethodTableKey) : Nat × Context :=
  match ctx.assigned.find? (fun p => p.1 == key) with
  | some p => (p.2, ctx)
  | none =>
    let n := (ctx.assigned.filter (fun p => p.1.category == key.category)).length
    (n, ⟨ctx.assigned ++ [(key, n)]⟩)

/-- One member initializer (central_generator.rs, MethodInit): the data of the
generated `load_*` call (owner name, member name, ABI hash) plus its index. -/
structure MethodInit where
  ownerName : String
  methodName : String
  hash : Int
  index : Nat
deriving DecidableEq, Repr

/-- One owner's initializer group (central_generator.rs, MethodInitGroup).
`classVarInit` holds the interned owner-name token, when materialized. -/
structure MethodInitGroup where
  className : String
  classVarInit : Option String
  methodInits : List MethodInit
deriving DecidableEq, Repr

/-- MethodInitGroup::new (central_generator.rs lines 81-99): the class variable is
only created if a class var was requested and at least one method was added. -/
def MethodInitGroup.make (godotClassName : String) (classVar : Bool)
    (methodInits : List MethodInit) : MethodInitGroup :=
  { className := godotClassName
    classVarInit :=
      if !classVar || methodInits.isEmpty then none else some godotClassName
    methodInits := methodInits }

/-- Key of the lazy (keyed) strategy (generated crate::lazy_keys structs). -/
inductive LazyKey
  | classMethod (className : String) (methodName : String) (hash : Int)
  | builtinMethod (variantType : String) (variantTypeStr : String)
      (methodName : String) (hash : Int)
deriving DecidableEq, BEq, Repr

/-- A named accessor registration (central_generator.rs, AccessorMethod). -/
structure AccessorMethod where
  name : String
  index : Nat
  lazyKey : LazyKey
deriving DecidableEq, Repr

/-- The descriptor of an indexed method table (central_generator.rs, IndexedMethodTable),
restricted to the fields that carry data (token-stream boilerplate is omitted). -/
structure IndexedMethodTable where
  tableName : String
  methodInitGroups : List MethodInitGroup
  namedAccessors : List AccessorMethod
  classCount : Nat
  methodCount : Nat
deriving DecidableEq, Repr

/-- The code emitted for an eager indexed table: its constants, its groups in
registration order, and its named accessors. -/
structure EagerTableCode where
  tableName : String
  methodCount : Nat
  classCount : Nat
  groups : List MethodInitGroup
  namedAccessors : List AccessorMethod
deriving DecidableEq, Repr

/-- The code payload carried over unchanged from descriptor to emitted table. -/
def mkEagerCode (info : IndexedMethodTable) : EagerTableCode :=
  { tableName := info.tableName
    methodCount := info.methodCount
    classCount := info.classCount
    groups := info.methodInitGroups
    namedAccessors := info.namedAccessors }

/-- make_method_table, eager strategy (central_generator.rs lines 229-337).
The two assert_eq blocks and the .unwrap() are modelled as none (generation abort). -/
def makeMethodTable (info : IndexedMethodTable) : Option EagerTableCode :=
  if (info.methodInitGroups.map (fun g => g.methodInits.length)).sum ≠ info.methodCount
  then none
  else
    match info.methodInitGroups.getLast? with
    | some lastGroup =>
      match lastGroup.methodInits.getLast? with
      | none => none
      | some lastInit =>
        if lastInit.index = info.methodCount - 1 then some (mkEagerCode info) else none
    | none =>
      if info.methodCount = 0 then some (mkEagerCode info) else none

/-- The runtime eager table: a dense, index-ordered function-pointer sequence.
Function pointers are modelled as natural numbers. -/
structure EagerTable where
  functionPointers : List Nat
deriving DecidableEq, Repr

/-- The generated `load` of the eager strategy: each group's loader pushes the
resolution of each of its initializers, in registration order. -/
def EagerTableCode.load (code : EagerTableCode) (resolve : MethodInit → Nat) : EagerTable :=
  ⟨((code.groups.map MethodInitGroup.methodInits).flatten).map resolve⟩

/-- The generated `fptr_by_index` (central_generator.rs lines 324-330): an
unchecked read at `index`.  The unchecked access is modelled as an optional read;
`none` represents an out-of-bounds access (undefined behaviour in the source). -/
def EagerTable.fptrByIndex (t : EagerTable) (index : Nat) : Option Nat :=
  t.functionPointers.get? index

/-- Inner state of the lazy keyed table: the key-to-pointer cache (generated
InnerTable; the string cache handle carries no lookup-relevant data here). -/
structure LazyInner where
  functionPointers : List (LazyKey × Nat)
deriving DecidableEq, Repr

/-- The runtime lazy keyed table (generated by the lazy make_method_table,
central_generator.rs lines 340-411). -/
structure LazyTable where
  inner : LazyInner
deriving DecidableEq, Repr

/-- The generated lazy `load` (central_generator.rs lines 385-397): defers all
resolution and starts from an empty key-to-pointer map. -/
def LazyTable.load : LazyTable := ⟨⟨[]⟩⟩

/-- Lookup in the key-to-pointer map (HashMap::entry hit test). -/
def assocLookup (key : LazyKey) : List (LazyKey × Nat) → Option Nat
  | [] => none
  | p :: rest => if p.1 = key then some p.2 else assocLookup key rest

/-- The generated lazy `fptr_by_key` (central_generator.rs lines 399-406):
`entry(key).or_insert_with(resolve)` under the table's single RefCell guard.
Returns the pointer, the updated table, and whether the resolver was invoked. -/
def LazyTable.fptrByKey (t : LazyTable) (resolve : LazyKey → Nat) (key : LazyKey) :
    Nat × LazyTable × Bool :=
  match assocLookup key t.inner.functionPointers with
  | some v => (v, t, false)
  | none =>
    let v := resolve key
    (v, ⟨⟨t.inner.functionPointers ++ [(key, v)]⟩⟩, true)

/-- A sequence of lookups, keeping only the evolving table state. -/
def lookupMany (resolve : LazyKey → Nat) (t : LazyTable) : List LazyKey → LazyTable
  | [] => t
  | k :: ks => lookupMany resolve (t.fptrByKey resolve k).2.1 ks

/-- Body of a generated named accessor: the pre-baked index (eager strategy) or
the pre-baked key (lazy strategy); the function takes no key argument. -/
inductive AccessorBody
  | byIndex (index : Nat)
  | byKey (key : LazyKey)
deriving DecidableEq, Repr

/-- make_named_accessors (central_generator.rs lines 828-858): one fixed-name
function per accessor entry, dispatching to fptr_by_key when the
codegen-lazy-fptrs feature is on, else to fptr_by_index. -/
def makeNamedAccessors (lazyFeature : Bool) (accessors : List AccessorMethod) :
    List (String × AccessorBody) :=
  accessors.map fun a =>
    (a.name, if lazyFeature then AccessorBody.byKey a.lazyKey else AccessorBody.byIndex a.index)

/-- Semantics of an accessor body on an eager table (none on a strategy mismatch,
which the generator never emits). -/
def runAccessorEager (t : EagerTable) : AccessorBody → Option Nat
  | .byIndex i => t.fptrByIndex i
  | .byKey _ => none

/-- Semantics of an accessor body on a lazy table. -/
def runAccessorLazy (t : LazyTable) (resolve : LazyKey → Nat) :
    AccessorBody → Option (Nat × LazyTable × Bool)
  | .byKey k => some (t.fptrByKey resolve k)
  | .byIndex _ => none

/-- A Gd smart pointer, modelled by its observed reference count and an object
identity; upcast/cast only change the static type and are identities here. -/
structure Gd where
  refCount : Int
  objId : Nat
deriving DecidableEq, Repr

/-- The non-uniqueness error (not_unique_error.rs). -/
structure NotUniqueError where
  referenceCount : Int
deriving DecidableEq, Repr

/-- NotUniqueError::check (not_unique_error.rs lines 42-54). -/
def NotUniqueError.check (rc : Gd) : Except NotUniqueError Gd :=
  let referenceCount := rc.refCount
  if referenceCount ≠ 1 then .error ⟨referenceCount⟩ else .ok rc

/-- NotUniqueError::get_reference_count (not_unique_error.rs lines 57-59). -/
def NotUniqueError.getReferenceCount (e : NotUniqueError) : Int :=
  e.referenceCount

/-- Call direction of a class method (domain FnDirection): virtual hooks are not
directly invocable, outbound methods carry their ABI hash. -/
inductive FnDirection
  | virtualHook
  | outbound (hash : Int)
deriving DecidableEq, Repr

/-- A class method of the API model: Godot name, (possibly renamed) exposed name,
and direction. -/
structure ClassMethod where
  godotName : String
  name : String
  direction : FnDirection
deriving DecidableEq, Repr

/-- A class of the API model, already filtered to the active codegen level. -/
structure GodotClass where
  godotTy : String
  apiLevel : ApiLevel
  methods : List ClassMethod
deriving DecidableEq, Repr

/-- Whether a method is outbound-callable (FnDirection::Outbound). -/
def isOutboundMethod (m : ClassMethod) : Bool :=
  match m.direction with
  | .outbound _ => true
  | .virtualHook => false

/-- make_table_accessor_name (util.rs lines 181-187); the snake-case conversion is
an external collaborator and is passed in. -/
def makeTableAccessorName (snake : String → String) (classTy : String)
    (godotName : String) : String :=
  snake classTy ++ "__" ++ godotName

/-- The method loop of populate_class_methods (central_generator.rs lines 905-935):
virtual methods are skipped entirely; each outbound method gets an index from the
allocator, one initializer, a method_count increment, and - if the special-case
policy `isAcc` says so - a named accessor. -/
def populateClassMethodsAux (snake : String → String) (isAcc : String → String → Bool)
    (classTy : String) (apiLevel : ApiLevel) :
    List ClassMethod → List MethodInit → IndexedMethodTable → Context →
      List MethodInit × IndexedMethodTable × Context
  | [], inits, table, ctx => (inits, table, ctx)
  | m :: ms, inits, table, ctx =>
    match m.direction with
    | .virtualHook => populateClassMethodsAux snake isAcc classTy apiLevel ms inits table ctx
    | .outbound hash =>
      let p := ctx.getTableIndex (MethodTableKey.classMethod apiLevel classTy m.godotName)
      let init : MethodInit := ⟨classTy, m.godotName, hash, p.1⟩
      let table' : IndexedMethodTable :=
        { table with
          methodCount := table.methodCount + 1
          namedAccessors :=
            if isAcc classTy m.godotName then
              table.namedAccessors ++
                [⟨makeTableAccessorName snake classTy m.godotName, p.1,
                  LazyKey.classMethod classTy m.name hash⟩]
            else table.namedAccessors }
      populateClassMethodsAux snake isAcc classTy apiLevel ms (inits ++ [init]) table' p.2

/-- populate_class_methods (central_generator.rs lines 898-947): run the method
loop; push a group and count the class only if any initializer was produced. -/
def populateClassMethods (snake : String → String) (isAcc : String → String → Bool)
    (table : IndexedMethodTable) (cls : GodotClass) (ctx : Context) :
    IndexedMethodTable × Context :=
  let r := populateClassMethodsAux snake isAcc cls.godotTy cls.apiLevel cls.methods [] table ctx
  if r.1.isEmpty then (r.2.1, r.2.2)
  else
    ({ r.2.1 with
        methodInitGroups := r.2.1.methodInitGroups ++ [MethodInitGroup.make cls.godotTy true r.1]
        classCount := r.2.1.classCount + 1 }, r.2.2)

/-- A builtin method of the API model. -/
structure BuiltinMethod where
  godotName : String
  name : String
  hash : Int
deriving DecidableEq, Repr

/-- An operator declared by a builtin class (only the symbol matters here). -/
structure Operator where
  symbol : String
deriving DecidableEq, Repr

/-- A raw constructor parameter (name and declared type). -/
structure ConstructorArg where
  name : String
  type_ : String
deriving DecidableEq, Repr

/-- A builtin constructor declaration: its declared index and raw parameters. -/
structure Constructor where
  index : Nat
  rawParameters : List ConstructorArg
deriving DecidableEq, Repr

/-- A builtin class of the API model. -/
structure BuiltinClass where
  godotTy : String
  methods : List BuiltinMethod
  constructors : List Constructor
  hasDestructor : Bool
  operators : List Operator
deriving DecidableEq, Repr

/-- A builtin variant of the API model; `associatedBuiltinClass` is none for
variants without a generated class (Object, int, bool, ...).  The snake name and
sys variant type tag are produced by external conversion and carried as data. -/
structure BuiltinVariant where
  godotOriginalName : String
  snakeName : String
  sysVariantType : String
  associatedBuiltinClass : Option BuiltinClass
deriving DecidableEq, Repr

/-- The method loop of populate_builtin_methods (central_generator.rs lines
961-989): every method contributes (there is no direction filter for builtins). -/
def populateBuiltinMethodsAux (snake : String → String) (isAcc : String → String → Bool)
    (builtin : BuiltinVariant) (builtinTy : String) :
    List BuiltinMethod → List MethodInit → IndexedMethodTable → Context →
      List MethodInit × IndexedMethodTable × Context
  | [], inits, table, ctx => (inits, table, ctx)
  | m :: ms, inits, table, ctx =>
    let p := ctx.getTableIndex (MethodTableKey.builtinMethod builtinTy m.godotName)
    let init : MethodInit := ⟨builtin.godotOriginalName, m.name, m.hash, p.1⟩
    let table' : IndexedMethodTable :=
      { table with
        methodCount := table.methodCount + 1
        namedAccessors :=
          if isAcc builtinTy m.godotName then
            table.namedAccessors ++
              [⟨makeTableAccessorName snake builtinTy m.godotName, p.1,
                LazyKey.builtinMethod builtin.sysVariantType builtin.godotOriginalName
                  m.name m.hash⟩]
          else table.namedAccessors }
    populateBuiltinMethodsAux snake isAcc builtin builtinTy ms (inits ++ [init]) table' p.2

/-- populate_builtin_methods (central_generator.rs lines 949-997): variants without
an associated class are ignored; otherwise a group is pushed and class_count
incremented unconditionally, even when the method list is empty. -/
def populateBuiltinMethods (snake : String → String) (isAcc : String → String → Bool)
    (table : IndexedMethodTable) (builtin : BuiltinVariant) (ctx : Context) :
    IndexedMethodTable × Context :=
  match builtin.associatedBuiltinClass with
  | none => (table, ctx)
  | some bc =>
    let r := populateBuiltinMethodsAux snake isAcc builtin bc.godotTy bc.methods [] table ctx
    ({ r.2.1 with
        methodInitGroups := r.2.1.methodInitGroups ++ [MethodInitGroup.make bc.godotTy false r.1]
        classCount := r.2.1.classCount + 1 }, r.2.2)

/-- Rust String::pop on the name accumulator: remove the last character. -/
def popChar (s : String) : String :=
  ⟨s.data.dropLast⟩

/-- The arg_names fold of make_extra_constructors (central_generator.rs lines
1237-1240): append every parameter name followed by an underscore, then pop the
trailing underscore. -/
def joinArgNames (args : List ConstructorArg) : String :=
  popChar (args.foldl (fun acc arg => acc ++ arg.name ++ "_") "")

/-- Naming of one extra constructor (central_generator.rs lines 1227-1242).
`snakeOf` stands for api.builtin_by_original_name(type).snake_name(), the external
type-name lookup and case conversion. -/
def extraCtorName (snakeOf : String → String) (typeSnake : String)
    (c : Constructor) : String :=
  match c.rawParameters with
  | [arg] =>
    if arg.name = "from" then typeSnake ++ "_from_" ++ snakeOf arg.type_
    else typeSnake ++ "_from_" ++ joinArgNames c.rawParameters
  | _ => typeSnake ++ "_from_" ++ joinArgNames c.rawParameters

/-- A generated construction entry point: its field name and the 0-based
constructor index passed to the host resolver (get_construct_fn). -/
structure ConstructEntry where
  name : String
  ctorIndex : Nat
deriving DecidableEq, Repr

/-- The positional sanity loop of make_construct_fns (lines 1154-1156):
every constructor's position must equal its declared index. -/
def indicesMatchFrom : Nat → List Constructor → Bool
  | _, [] => true
  | i, c :: rest => c.index == i && indicesMatchFrom (i + 1) rest

/-- The loop of make_extra_constructors (lines 1220-1256), carrying the absolute
position `i`; a custom constructor with no parameters is a generation abort. -/
def makeExtraConstructorsAux (snakeOf : String → String) (typeSnake : String) :
    Nat → List Constructor → Option (List ConstructEntry)
  | _, [] => some []
  | i, c :: rest =>
    if c.rawParameters.isEmpty then none
    else
      match makeExtraConstructorsAux snakeOf typeSnake (i + 1) rest with
      | none => none
      | some es => some (⟨extraCtorName snakeOf typeSnake c, i⟩ :: es)

/-- make_extra_constructors (lines 1211-1259): iterate declarations from
position 2 with their absolute index. -/
def makeExtraConstructors (snakeOf : String → String) (typeSnake : String)
    (constructors : List Constructor) : Option (List ConstructEntry) :=
  makeExtraConstructorsAux snakeOf typeSnake 2 (constructors.drop 2)

/-- make_construct_fns (lines 1138-1208): empty list emits nothing; otherwise the
sanity asserts must pass (positions match indices, default constructor at 0 has no
parameters, the constructor at 1 has exactly one parameter named "from" of the
owner's type, including its existence - constructors[1] panics on a 1-element
list); then the default/copy entries and the extra constructors are produced. -/
def makeConstructFns (snakeOf : String → String) (ownerOriginalName : String)
    (typeSnake : String) (constructors : List Constructor) :
    Option (List ConstructEntry) :=
  match constructors with
  | [] => some []
  | c0 :: rest0 =>
    if ¬ indicesMatchFrom 0 (c0 :: rest0) then none
    else if ¬ c0.rawParameters.isEmpty then none
    else
      match rest0 with
      | [] => none
      | c1 :: _ =>
        match c1.rawParameters with
        | [arg] =>
          if arg.name ≠ "from" then none
          else if arg.type_ ≠ ownerOriginalName then none
          else
            (makeExtraConstructors snakeOf typeSnake (c0 :: rest0)).map fun extras =>
              ⟨typeSnake ++ "_construct_default", 0⟩
                :: ⟨typeSnake ++ "_construct_copy", 1⟩ :: extras
        | _ => none

/-- Stated from the claim: the copy constructor requirement - a constructor at
index 1 with exactly one parameter named "from" whose declared type is the owner. -/
def copyCtorOk (owner : String) (ctors : List Constructor) : Bool :=
  match ctors.get? 1 with
  | some c1 =>
    match c1.rawParameters with
    | [arg] => arg.name == "from" && arg.type_ == owner
    | _ => false
  | none => false

/-- Stated from the claim: generation succeeds iff the list is empty or all of:
positions equal indices, index 0 has no parameters, the index-1 copy constructor
is well-formed, and every custom constructor (position >= 2) has parameters. -/
def constructChecksOk (owner : String) (ctors : List Constructor) : Bool :=
  ctors.isEmpty ||
    (indicesMatchFrom 0 ctors
      && (match ctors with
          | [] => true
          | c0 :: _ => c0.rawParameters.isEmpty)
      && copyCtorOk owner ctors
      && (ctors.drop 2).all (fun c => !c.rawParameters.isEmpty))

/-- Stated from the claim: underscore-separated concatenation of names. -/
def concatNames : List String → String
  | [] => ""
  | [n] => n
  | n :: rest => n ++ "_" ++ concatNames rest

/-- Stated from the claim: the name of an extra constructor - conversion
constructors (single parameter named "from") use the source type's snake name,
all others concatenate their parameter names. -/
def claimedExtraName (snakeOf : String → String) (typeSnake : String)
    (c : Constructor) : String :=
  match c.rawParameters with
  | [arg] =>
    if arg.name = "from" then typeSnake ++ "_from_" ++ snakeOf arg.type_
    else typeSnake ++ "_from_" ++ concatNames (c.rawParameters.map ConstructorArg.name)
  | _ => typeSnake ++ "_from_" ++ concatNames (c.rawParameters.map ConstructorArg.name)

/-- Stated from the claim: entries for the constructors from position `i` on. -/
def claimedExtraEntries (snakeOf : String → String) (typeSnake : String) :
    Nat → List Constructor → List ConstructEntry
  | _, [] => []
  | i, c :: rest =>
    ⟨claimedExtraName snakeOf typeSnake c, i⟩
      :: claimedExtraEntries snakeOf typeSnake (i + 1) rest

/-- Stated from the claim: the full expected construction entry list -
t_construct_default at resolver index 0, t_construct_copy at 1, then the extra
constructors at their declaration positions. -/
def claimedConstructEntries (snakeOf : String → String) (typeSnake : String)
    (ctors : List Constructor) : List ConstructEntry :=
  ⟨typeSnake ++ "_construct_default", 0⟩ :: ⟨typeSnake ++ "_construct_copy", 1⟩ ::
    claimedExtraEntries snakeOf typeSnake 2 (ctors.drop 2)

/-- Names emitted by make_operator_fns (lines 1284-1320) for one symbol; the
lowercased sys name is passed in, matching the two constant call sites. -/
def makeOperatorFnNames (builtin : BuiltinVariant) (operators : List Operator)
    (jsonSymbol : String) (sysNameLower : String) : List String :=
  if operators.isEmpty || !(operators.any (fun op => op.symbol == jsonSymbol)) then []
  else [builtin.snakeName ++ "_operator_" ++ sysNameLower]

/-- Names emitted by make_destroy_fns (lines 1261-1282). -/
def makeDestroyFnNames (builtin : BuiltinVariant) (hasDestructor : Bool) : List String :=
  if !hasDestructor then [] else [builtin.snakeName ++ "_destroy"]

/-- make_variant_fns (lines 1070-1136): the field names a builtin variant
contributes to the lifecycle table - to/from-variant conversions always, plus
operators, constructors and destructor when an associated class exists.  The
constructor asserts propagate as none. -/
def makeVariantFns (snakeOf : String → String) (builtin : BuiltinVariant) :
    Option (List String) :=
  match builtin.associatedBuiltinClass with
  | none => some [builtin.snakeName ++ "_to_variant", builtin.snakeName ++ "_from_variant"]
  | some bc =>
    (makeConstructFns snakeOf builtin.godotOriginalName builtin.snakeName
        bc.constructors).map fun ctorEntries =>
      [builtin.snakeName ++ "_to_variant", builtin.snakeName ++ "_from_variant"]
        ++ makeOperatorFnNames builtin bc.operators "==" "equal"
        ++ makeOperatorFnNames builtin bc.operators "<" "less"
        ++ ctorEntries.map ConstructEntry.name
        ++ makeDestroyFnNames builtin bc.hasDestructor

/-- A named method table descriptor (central_generator.rs, NamedMethodTable),
reduced to its data: field names and the declared counts that
make_named_method_table emits as CLASS_COUNT/METHOD_COUNT. -/
structure NamedMethodTable where
  tableName : String
  methodDecls : List String
  classCount : Nat
  methodCount : Nat
deriving DecidableEq, Repr

/-- make_builtin_lifecycle_table (lines 742-780): class_count is set to the
number of builtin variants, method_count stays 0, and every variant contributes
its lifecycle fields. -/
def makeBuiltinLifecycleTable (snakeOf : String → String)
    (builtins : List BuiltinVariant) : Option NamedMethodTable :=
  (builtins.mapM (makeVariantFns snakeOf)).map fun declss =>
    ⟨"BuiltinLifecycleTable", declss.flatten, builtins.length, 0⟩

/-- C1: the eager table generator aborts unless the sum of per-group initializer
counts equals the declared method_count, the globally last initializer (last of the
last group) exists and has index method_count - 1 when at least one group exists,
and method_count = 0 when no group exists; only then is a table produced. -/
theorem make_method_table_checks_iff (info : IndexedMethodTable) :
    (makeMethodTable info).isSome ↔
      ((info.methodInitGroups.map (fun g => g.methodInits.length)).sum = info.methodCount
        ∧ (match info.methodInitGroups.getLast? with
            | none => info.methodCount = 0
            | some lastGroup =>
              ∃ lastInit, lastGroup.methodInits.getLast? = some lastInit
                ∧ lastInit.index = info.methodCount - 1)) := by
  unfold makeMethodTable
  split
  · rename_i hsum
    simp only [Option.isSome_none, Bool.false_eq_true, false_iff]
    intro h
    exact hsum h.1
  · rename_i hsum
    rw [not_ne_iff] at hsum
    cases hlast : info.methodInitGroups.getLast? with
    | none =>
      simp only [hlast, hsum, true_and]
      split <;> simp_all
    | some lastGroup =>
      simp only [hlast, hsum, true_and]
      cases hinit : lastGroup.methodInits.getLast? with
      | none => simp
      | some lastInit =>
        simp only
        split <;> simp_all

/-- C10: NotUniqueError::check returns Err exactly when the observed reference
count differs from 1, the error carrying exactly the observed count; when the count
equals 1 it returns Ok with the same object. -/
theorem not_unique_error_check_spec (rc : Gd) :
    (rc.refCount ≠ 1 → NotUniqueError.check rc = .error ⟨rc.refCount⟩
      ∧ ∀ e, NotUniqueError.check rc = .error e → e.getReferenceCount = rc.refCount)
    ∧ (rc.refCount = 1 → NotUniqueError.check rc = .ok rc)
    ∧ ((∃ e, NotUniqueError.check rc = .error e) ↔ rc.refCount ≠ 1) := by
  refine ⟨fun h => ?_, fun h => ?_, ?_⟩
  · constructor
    · simp [NotUniqueError.check, h]
    · intro e he
      simp [NotUniqueError.check, h] at he
      simp [← he, NotUniqueError.getReferenceCount]
  · simp [NotUniqueError.check, h]
  · constructor
    · rintro ⟨e, he⟩ h1
      simp [NotUniqueError.check, h1] at he
    · intro h
      exact ⟨⟨rc.refCount⟩, by simp [NotUniqueError.check, h]⟩

/-- Inversion of a successful eager generation: the emitted code is the descriptor's
payload and the completeness sum holds. -/
theorem makeMethodTable_eq_some (info : IndexedMethodTable) (code : EagerTableCode)
    (h : makeMethodTable info = some code) :
    code = mkEagerCode info
    ∧ (info.methodInitGroups.map (fun g => g.methodInits.length)).sum = info.methodCount := by
  unfold makeMethodTable at h
  split at h
  · exact absurd h (by simp)
  · rename_i hsum
    rw [not_ne_iff] at hsum
    split at h <;> [skip; (split at h <;> simp_all)]
    split at h <;> simp_all

/-- C3: on a table whose build-time checks passed, fptr_by_index i for i within
[0, METHOD_COUNT) is exactly the unchecked read of position i of the dense sequence
(the resolution of the i-th initializer in group order), and that read is in bounds. -/
theorem fptr_by_index_dense (info : IndexedMethodTable) (code : EagerTableCode)
    (resolve : MethodInit → Nat) (i : Nat)
    (h1 : makeMethodTable info = some code) (h2 : i < code.methodCount) :
    (code.load resolve).fptrByIndex i
        = ((code.groups.map MethodInitGroup.methodInits).flatten.get? i).map resolve
    ∧ ((code.load resolve).fptrByIndex i).isSome := by
  obtain ⟨hcode, hsum⟩ := makeMethodTable_eq_some info code h1
  subst hcode
  have hlen : ((mkEagerCode info).groups.map MethodInitGroup.methodInits).flatten.length
      = (mkEagerCode info).methodCount := by
    rw [List.length_flatten, List.map_map]
    simpa [Function.comp] using hsum
  have hi : i < ((mkEagerCode info).groups.map MethodInitGroup.methodInits).flatten.length :=
    hlen ▸ h2
  have h3 : ∀ (L : List MethodInit), i < L.length →
      (L.map resolve).get? i = (L.get? i).map resolve ∧ ((L.map resolve).get? i).isSome := by
    intro L hL
    refine ⟨by simp [List.get?_eq_getElem?, List.getElem?_map], ?_⟩
    simp [List.get?_eq_getElem?, List.getElem?_map, hL]
  obtain ⟨hmap, hsome⟩ := h3 _ hi
  exact ⟨hmap, hsome⟩

/-- Witness for C3: a one-group, one-method table; index 0 reads the resolved
pointer in bounds. -/
theorem fptr_by_index_dense_witness :
    ((mkEagerCode ⟨"ClassSceneMethodTable",
        [⟨"Node", some "Node", [⟨"Node", "add_child", 3, 0⟩]⟩], [], 1, 1⟩).load
          (fun init => init.index + 7)).fptrByIndex 0
      = (((mkEagerCode ⟨"ClassSceneMethodTable",
        [⟨"Node", some "Node", [⟨"Node", "add_child", 3, 0⟩]⟩], [], 1, 1⟩).groups.map
          MethodInitGroup.methodInits).flatten.get? 0).map (fun init => init.index + 7)
    ∧ (((mkEagerCode ⟨"ClassSceneMethodTable",
        [⟨"Node", some "Node", [⟨"Node", "add_child", 3, 0⟩]⟩], [], 1, 1⟩).load
          (fun init => init.index + 7)).fptrByIndex 0).isSome :=
  fptr_by_index_dense
    ⟨"ClassSceneMethodTable", [⟨"Node", some "Node", [⟨"Node", "add_child", 3, 0⟩]⟩], [], 1, 1⟩
    _ (fun init => init.index + 7) 0 (by decide) (by decide)

/-- Appending a binding for a different key preserves the absence of a key. -/
theorem assocLookup_append_none {key k : LazyKey} {c : List (LazyKey × Nat)} {v : Nat}
    (h : assocLookup key c = none) (hne : k ≠ key) :
    assocLookup key (c ++ [(k, v)]) = none := by
  induction c with
  | nil => simp [assocLookup, hne]
  | cons p rest ih =>
    simp only [assocLookup] at h ⊢
    split at h
    · exact absurd h (by simp)
    · rename_i hne2
      rw [if_neg hne2]
      exact ih h

/-- Appending a binding for the key itself makes lookup find it. -/
theorem assocLookup_append_self {key : LazyKey} {c : List (LazyKey × Nat)} {v : Nat}
    (h : assocLookup key c = none) :
    assocLookup key (c ++ [(key, v)]) = some v := by
  induction c with
  | nil => simp [assocLookup]
  | cons p rest ih =>
    simp only [assocLookup] at h ⊢
    split at h
    · exact absurd h (by simp)
    · rename_i hne2
      rw [if_neg hne2]
      exact ih h

/-- Appending any binding preserves an already-found key's value (insertions
never overwrite: the miss branch only appends keys that were absent). -/
theorem assocLookup_append_some {key : LazyKey} {c : List (LazyKey × Nat)} {v : Nat}
    (h : assocLookup key c = some v) (p : LazyKey × Nat) :
    assocLookup key (c ++ [p]) = some v := by
  induction c with
  | nil => exact absurd h (by simp [assocLookup])
  | cons q rest ih =>
    simp only [assocLookup] at h ⊢
    split at h
    · rename_i he
      rw [if_pos he]
      exact h
    · rename_i hne2
      rw [if_neg hne2]
      exact ih h

/-- An already-cached binding survives any further sequence of lookups. -/
theorem lookupMany_preserves_some (resolve : LazyKey → Nat) (ks : List LazyKey) :
    ∀ (t : LazyTable) (k : LazyKey) (v : Nat),
      assocLookup k t.inner.functionPointers = some v →
      assocLookup k (lookupMany resolve t ks).inner.functionPointers = some v := by
  induction ks with
  | nil => intro t k v h; simpa [lookupMany] using h
  | cons k1 ks ih =>
    intro t k v h
    simp only [lookupMany]
    apply ih _ k v
    unfold LazyTable.fptrByKey
    cases hl : assocLookup k1 t.inner.functionPointers with
    | some w => simpa using h
    | none => simpa using assocLookup_append_some h (k1, resolve k1)

/-- The hit branch of the lazy lookup: a cached key returns its pointer, leaves
the table unchanged and does not invoke the resolver. -/
theorem fptrByKey_hit (t : LazyTable) (resolve : LazyKey → Nat) (key : LazyKey)
    (v : Nat) (h : assocLookup key t.inner.functionPointers = some v) :
    t.fptrByKey resolve key = (v, t, false) := by
  unfold LazyTable.fptrByKey
  rw [h]

/-- Keys never looked up stay absent from the lazy cache. -/
theorem lookupMany_not_mem (resolve : LazyKey → Nat) (ks : List LazyKey) :
    ∀ (t : LazyTable) (k : LazyKey), k ∉ ks →
      assocLookup k t.inner.functionPointers = none →
      assocLookup k (lookupMany resolve t ks).inner.functionPointers = none := by
  induction ks with
  | nil => intro t k _ h; simpa [lookupMany] using h
  | cons k1 ks ih =>
    intro t k hmem h
    have hne : k1 ≠ k := fun he => hmem (he ▸ List.mem_cons_self k1 ks)
    have hmem' : k ∉ ks := fun hk => hmem (List.mem_cons_of_mem k1 hk)
    simp only [lookupMany]
    apply ih _ k hmem'
    unfold LazyTable.fptrByKey
    cases hl : assocLookup k1 t.inner.functionPointers with
    | some v => simpa using h
    | none => simpa using assocLookup_append_none h hne

/-- C4: the lazy table starts from an empty cache; a key never looked up is absent;
the first lookup of a fresh key invokes the resolver and caches its result; the
second lookup of an equal key returns the identical cached pointer and the same
table without invoking the resolver. -/
theorem lazy_lookup_idempotent (resolve : LazyKey → Nat) (ks : List LazyKey)
    (k : LazyKey) (h : k ∉ ks) :
    LazyTable.load.inner.functionPointers = []
    ∧ assocLookup k (lookupMany resolve LazyTable.load ks).inner.functionPointers = none
    ∧ ((lookupMany resolve LazyTable.load ks).fptrByKey resolve k).1 = resolve k
    ∧ ((lookupMany resolve LazyTable.load ks).fptrByKey resolve k).2.2 = true
    ∧ (((lookupMany resolve LazyTable.load ks).fptrByKey resolve k).2.1.fptrByKey resolve k)
        = (resolve k, ((lookupMany resolve LazyTable.load ks).fptrByKey resolve k).2.1, false)
    ∧ (∀ ks2,
        ((lookupMany resolve
            ((lookupMany resolve LazyTable.load ks).fptrByKey resolve k).2.1
            ks2).fptrByKey resolve k)
          = (resolve k,
             lookupMany resolve
               ((lookupMany resolve LazyTable.load ks).fptrByKey resolve k).2.1 ks2,
             false)) := by
  have habs : assocLookup k (lookupMany resolve LazyTable.load ks).inner.functionPointers
      = none :=
    lookupMany_not_mem resolve ks LazyTable.load k h (by simp [LazyTable.load, assocLookup])
  have hfirst : (lookupMany resolve LazyTable.load ks).fptrByKey resolve k
      = (resolve k,
          ⟨⟨(lookupMany resolve LazyTable.load ks).inner.functionPointers
              ++ [(k, resolve k)]⟩⟩, true) := by
    unfold LazyTable.fptrByKey
    simp [habs]
  refine ⟨rfl, habs, ?_, ?_, ?_, ?_⟩
  · rw [hfirst]
  · rw [hfirst]
  · rw [hfirst]
    unfold LazyTable.fptrByKey
    simp [assocLookup_append_self habs]
  · intro ks2
    have hcached : assocLookup k
        (lookupMany resolve
          ((lookupMany resolve LazyTable.load ks).fptrByKey resolve k).2.1
          ks2).inner.functionPointers = some (resolve k) := by
      apply lookupMany_preserves_some
      rw [hfirst]
      exact assocLookup_append_self habs
    exact fptrByKey_hit _ resolve k (resolve k) hcached

/-- Witness for C4 at a concrete key and resolver, with no prior lookups, and
with one intervening lookup of a different key before the repeat lookup. -/
theorem lazy_lookup_idempotent_witness :
    LazyTable.load.inner.functionPointers = []
    ∧ assocLookup (LazyKey.classMethod "Node" "add_child" 3)
        (lookupMany (fun _ => 11) LazyTable.load []).inner.functionPointers = none
    ∧ ((lookupMany (fun _ => 11) LazyTable.load []).fptrByKey (fun _ => 11)
        (LazyKey.classMethod "Node" "add_child" 3)).1 = (fun _ => 11) (LazyKey.classMethod "Node" "add_child" 3)
    ∧ ((lookupMany (fun _ => 11) LazyTable.load []).fptrByKey (fun _ => 11)
        (LazyKey.classMethod "Node" "add_child" 3)).2.2 = true
    ∧ (((lookupMany (fun _ => 11) LazyTable.load []).fptrByKey (fun _ => 11)
        (LazyKey.classMethod "Node" "add_child" 3)).2.1.fptrByKey (fun _ => 11)
        (LazyKey.classMethod "Node" "add_child" 3))
        = ((fun _ => 11) (LazyKey.classMethod "Node" "add_child" 3),
           ((lookupMany (fun _ => 11) LazyTable.load []).fptrByKey (fun _ => 11)
             (LazyKey.classMethod "Node" "add_child" 3)).2.1, false)
    ∧ ((lookupMany (fun _ => 11)
          ((lookupMany (fun _ => 11) LazyTable.load []).fptrByKey (fun _ => 11)
            (LazyKey.classMethod "Node" "add_child" 3)).2.1
          [LazyKey.classMethod "Node" "get_name" 4]).fptrByKey (fun _ => 11)
          (LazyKey.classMethod "Node" "add_child" 3))
        = ((fun _ => 11) (LazyKey.classMethod "Node" "add_child" 3),
           lookupMany (fun _ => 11)
             ((lookupMany (fun _ => 11) LazyTable.load []).fptrByKey (fun _ => 11)
               (LazyKey.classMethod "Node" "add_child" 3)).2.1
             [LazyKey.classMethod "Node" "get_name" 4], false) := by
  obtain ⟨a, b, c, d, e, f⟩ :=
    lazy_lookup_idempotent (fun _ => 11) [] (LazyKey.classMethod "Node" "add_child" 3)
      (by simp)
  exact ⟨a, b, c, d, e, f [LazyKey.classMethod "Node" "get_name" 4]⟩

/-- C5: every registered accessor entry yields, under either strategy, a fixed-name
generated function whose body is the generic lookup at its pre-baked index (eager)
or pre-baked key (lazy), so its result equals that generic lookup's result. -/
theorem named_accessor_equivalence (accs : List AccessorMethod) (a : AccessorMethod)
    (h : a ∈ accs) (t : EagerTable) (lt : LazyTable) (resolve : LazyKey → Nat) :
    ((a.name, AccessorBody.byIndex a.index) ∈ makeNamedAccessors false accs
      ∧ runAccessorEager t (AccessorBody.byIndex a.index) = t.fptrByIndex a.index)
    ∧ ((a.name, AccessorBody.byKey a.lazyKey) ∈ makeNamedAccessors true accs
      ∧ runAccessorLazy lt resolve (AccessorBody.byKey a.lazyKey)
          = some (lt.fptrByKey resolve a.lazyKey)) := by
  refine ⟨⟨?_, rfl⟩, ?_, rfl⟩
  · exact List.mem_map.mpr ⟨a, h, rfl⟩
  · exact List.mem_map.mpr ⟨a, h, rfl⟩

/-- Witness for C5 at a concrete accessor entry, eager table and lazy table. -/
theorem named_accessor_equivalence_witness :
    (("node__add_child", AccessorBody.byIndex 0)
        ∈ makeNamedAccessors false [⟨"node__add_child", 0, LazyKey.classMethod "Node" "add_child" 3⟩]
      ∧ runAccessorEager ⟨[5]⟩ (AccessorBody.byIndex 0) = EagerTable.fptrByIndex ⟨[5]⟩ 0)
    ∧ (("node__add_child", AccessorBody.byKey (LazyKey.classMethod "Node" "add_child" 3))
        ∈ makeNamedAccessors true [⟨"node__add_child", 0, LazyKey.classMethod "Node" "add_child" 3⟩]
      ∧ runAccessorLazy LazyTable.load (fun _ => 9)
          (AccessorBody.byKey (LazyKey.classMethod "Node" "add_child" 3))
          = some (LazyTable.load.fptrByKey (fun _ => 9)
              (LazyKey.classMethod "Node" "add_child" 3))) :=
  named_accessor_equivalence
    [⟨"node__add_child", 0, LazyKey.classMethod "Node" "add_child" 3⟩]
    ⟨"node__add_child", 0, LazyKey.classMethod "Node" "add_child" 3⟩
    (by simp) ⟨[5]⟩ LazyTable.load (fun _ => 9)

/-- Witness for C10 at concrete inputs: a unique pointer passes through, a shared
one (count 2) yields the error carrying count 2. -/
theorem not_unique_error_check_spec_witness :
    NotUniqueError.check ⟨1, 5⟩ = .ok ⟨1, 5⟩
    ∧ NotUniqueError.check ⟨2, 5⟩ = .error ⟨2⟩
    ∧ NotUniqueError.getReferenceCount ⟨2⟩ = 2 := by
  refine ⟨(not_unique_error_check_spec ⟨1, 5⟩).2.1 (by decide), ?_, ?_⟩
  · exact ((not_unique_error_check_spec ⟨2, 5⟩).1 (by decide)).1
  · exact ((not_unique_error_check_spec ⟨2, 5⟩).1 (by decide)).2 ⟨2⟩
      (((not_unique_error_check_spec ⟨2, 5⟩).1 (by decide)).1)

/-- The class method loop ignores virtual methods entirely: running it on the
outbound-filtered method list gives the identical initializers, table and
allocator state. -/
theorem populateClassMethodsAux_filter (snake : String → String)
    (isAcc : String → String → Bool) (ty : String) (lvl : ApiLevel) :
    ∀ (ms : List ClassMethod) (inits : List MethodInit)
      (table : IndexedMethodTable) (ctx : Context),
      populateClassMethodsAux snake isAcc ty lvl (ms.filter isOutboundMethod) inits table ctx
        = populateClassMethodsAux snake isAcc ty lvl ms inits table ctx := by
  intro ms
  induction ms with
  | nil => intro inits table ctx; rfl
  | cons m ms ih =>
    intro inits table ctx
    cases hd : m.direction with
    | virtualHook =>
      have hf : (m :: ms).filter isOutboundMethod = ms.filter isOutboundMethod :=
        List.filter_cons_of_neg (by simp [isOutboundMethod, hd])
      rw [hf, ih]
      simp only [populateClassMethodsAux, hd]
    | outbound hash =>
      have hf : (m :: ms).filter isOutboundMethod = m :: ms.filter isOutboundMethod :=
        List.filter_cons_of_pos (by simp [isOutboundMethod, hd])
      rw [hf]
      simp only [populateClassMethodsAux, hd]
      exact ih _ _ _

/-- C8: methods whose direction is not outbound contribute nothing to the class
method table: populate_class_methods on a class equals populate_class_methods on
the same class restricted to its outbound methods (same initializers, same
method_count, same accessors, same allocator state, same groups). -/
theorem populate_class_methods_skips_virtual (snake : String → String)
    (isAcc : String → String → Bool) (table : IndexedMethodTable)
    (cls : GodotClass) (ctx : Context) :
    populateClassMethods snake isAcc table cls ctx
      = populateClassMethods snake isAcc table
          ⟨cls.godotTy, cls.apiLevel, cls.methods.filter isOutboundMethod⟩ ctx := by
  unfold populateClassMethods
  rw [populateClassMethodsAux_filter]

/-- The class method loop never touches class_count or the group list. -/
theorem populateClassMethodsAux_preserves (snake : String → String)
    (isAcc : String → String → Bool) (ty : String) (lvl : ApiLevel) :
    ∀ (ms : List ClassMethod) (inits : List MethodInit)
      (table : IndexedMethodTable) (ctx : Context),
      (populateClassMethodsAux snake isAcc ty lvl ms inits table ctx).2.1.classCount
          = table.classCount
      ∧ (populateClassMethodsAux snake isAcc ty lvl ms inits table ctx).2.1.methodInitGroups
          = table.methodInitGroups := by
  intro ms
  induction ms with
  | nil => intro inits table ctx; exact ⟨rfl, rfl⟩
  | cons m ms ih =>
    intro inits table ctx
    cases hd : m.direction with
    | virtualHook =>
      simp only [populateClassMethodsAux, hd]
      exact ih _ _ _
    | outbound hash =>
      simp only [populateClassMethodsAux, hd]
      exact ih _ _ _

/-- The class method loop produces one initializer per outbound method. -/
theorem populateClassMethodsAux_length (snake : String → String)
    (isAcc : String → String → Bool) (ty : String) (lvl : ApiLevel) :
    ∀ (ms : List ClassMethod) (inits : List MethodInit)
      (table : IndexedMethodTable) (ctx : Context),
      (populateClassMethodsAux snake isAcc ty lvl ms inits table ctx).1.length
        = inits.length + ms.countP isOutboundMethod := by
  intro ms
  induction ms with
  | nil => intro inits table ctx; simp [populateClassMethodsAux]
  | cons m ms ih =>
    intro inits table ctx
    cases hd : m.direction with
    | virtualHook =>
      simp only [populateClassMethodsAux, hd]
      rw [ih, List.countP_cons_of_neg]
      simp [isOutboundMethod, hd]
    | outbound hash =>
      simp only [populateClassMethodsAux, hd]
      rw [ih, List.countP_cons_of_pos]
      · simp; omega
      · simp [isOutboundMethod, hd]

/-- C2 counterexample: a builtin value type with an associated class but zero
methods still gets a group (with an empty initializer list) and still increments
class_count, contradicting the claim that owners with zero eligible members
produce no group and are not counted. -/
theorem populate_builtin_zero_members_counts :
    (populateBuiltinMethods (fun s => s) (fun _ _ => false)
        ⟨"BuiltinMethodTable", [], [], 0, 0⟩
        ⟨"Transform9", "transform9", "GDEXTENSION_VARIANT_TYPE_TRANSFORM9",
          some ⟨"Transform9", [], [], false, []⟩⟩
        ⟨[]⟩).1
      = ⟨"BuiltinMethodTable", [⟨"Transform9", none, []⟩], [], 1, 0⟩ := by
  rfl

/-- C2 amended: for classes, class_count is incremented and a group pushed exactly
when the class has at least one outbound method; for builtin variants, a group is
pushed and class_count incremented whenever an associated builtin class exists,
even with zero members, and nothing changes when there is none. -/
theorem owner_count_increment_amended (snake : String → String)
    (isAcc : String → String → Bool) (table : IndexedMethodTable)
    (cls : GodotClass) (builtin : BuiltinVariant) (ctx ctx2 : Context) :
    (cls.methods.any isOutboundMethod = false →
        (populateClassMethods snake isAcc table cls ctx).1.classCount = table.classCount
        ∧ (populateClassMethods snake isAcc table cls ctx).1.methodInitGroups
            = table.methodInitGroups)
    ∧ (cls.methods.any isOutboundMethod = true →
        (populateClassMethods snake isAcc table cls ctx).1.classCount = table.classCount + 1
        ∧ (populateClassMethods snake isAcc table cls ctx).1.methodInitGroups.length
            = table.methodInitGroups.length + 1)
    ∧ (∀ bc, builtin.associatedBuiltinClass = some bc →
        (populateBuiltinMethods snake isAcc table builtin ctx2).1.classCount
            = table.classCount + 1
        ∧ (populateBuiltinMethods snake isAcc table builtin ctx2).1.methodInitGroups.length
            = table.methodInitGroups.length + 1)
    ∧ (builtin.associatedBuiltinClass = none →
        (populateBuiltinMethods snake isAcc table builtin ctx2).1 = table) := by
  have hlen := populateClassMethodsAux_length snake isAcc cls.godotTy cls.apiLevel
    cls.methods [] table ctx
  have hpres := populateClassMethodsAux_preserves snake isAcc cls.godotTy cls.apiLevel
    cls.methods [] table ctx
  refine ⟨fun h => ?_, fun h => ?_, fun bc hbc => ?_, fun hbc => ?_⟩
  · have hcnt : cls.methods.countP isOutboundMethod = 0 :=
      List.countP_eq_zero.mpr (fun m hm => by simpa using List.any_eq_false.mp h m hm)
    have hempty : (populateClassMethodsAux snake isAcc cls.godotTy cls.apiLevel
        cls.methods [] table ctx).1.isEmpty = true := by
      rw [List.isEmpty_iff_length_eq_zero, hlen, hcnt]
      rfl
    unfold populateClassMethods
    rw [if_pos hempty]
    exact hpres
  · have hcnt : cls.methods.countP isOutboundMethod ≠ 0 := by
      obtain ⟨m, hm, hout⟩ := List.any_eq_true.mp h
      have := List.countP_pos_iff.mpr ⟨m, hm, hout⟩
      omega
    have hempty : (populateClassMethodsAux snake isAcc cls.godotTy cls.apiLevel
        cls.methods [] table ctx).1.isEmpty = false := by
      by_contra hb
      have htrue : (populateClassMethodsAux snake isAcc cls.godotTy cls.apiLevel
          cls.methods [] table ctx).1.isEmpty = true := by
        cases hx : (populateClassMethodsAux snake isAcc cls.godotTy cls.apiLevel
            cls.methods [] table ctx).1.isEmpty with
        | false => exact absurd hx hb
        | true => rfl
      rw [List.isEmpty_iff_length_eq_zero, hlen] at htrue
      exact hcnt (by simpa using htrue)
    unfold populateClassMethods
    rw [if_neg (by simp [hempty])]
    refine ⟨?_, ?_⟩
    · simp [hpres.1]
    · simp [hpres.2]
  · have hpresb : ∀ (ms : List BuiltinMethod) (inits : List MethodInit)
        (t : IndexedMethodTable) (c : Context),
        (populateBuiltinMethodsAux snake isAcc builtin bc.godotTy ms inits t c).2.1.classCount
            = t.classCount
        ∧ (populateBuiltinMethodsAux snake isAcc builtin bc.godotTy ms inits t c).2.1.methodInitGroups
            = t.methodInitGroups := by
      intro ms
      induction ms with
      | nil => intro inits t c; exact ⟨rfl, rfl⟩
      | cons m ms ih =>
        intro inits t c
        simp only [populateBuiltinMethodsAux]
        exact ih _ _ _
    unfold populateBuiltinMethods
    rw [hbc]
    have h1 := (hpresb bc.methods [] table ctx2).1
    have h2 := (hpresb bc.methods [] table ctx2).2
    constructor
    · simp [h1]
    · simp [h2]
  · unfold populateBuiltinMethods
    rw [hbc]

/-- Witness for C2's amended claim: a class with only a virtual method contributes
nothing; a builtin with an associated class and no methods still counts; a class
with one outbound method counts once; a variant without a class changes nothing. -/
theorem owner_count_increment_amended_witness :
    ((populateClassMethods (fun s => s) (fun _ _ => false) ⟨"T", [], [], 0, 0⟩
        ⟨"Node", .scene, [⟨"_ready", "_ready", .virtualHook⟩]⟩ ⟨[]⟩).1.classCount = 0
      ∧ (populateClassMethods (fun s => s) (fun _ _ => false) ⟨"T", [], [], 0, 0⟩
        ⟨"Node", .scene, [⟨"_ready", "_ready", .virtualHook⟩]⟩ ⟨[]⟩).1.methodInitGroups = [])
    ∧ ((populateClassMethods (fun s => s) (fun _ _ => false) ⟨"T", [], [], 0, 0⟩
        ⟨"Node", .scene, [⟨"add_child", "add_child", .outbound 3⟩]⟩ ⟨[]⟩).1.classCount = 0 + 1)
    ∧ ((populateBuiltinMethods (fun s => s) (fun _ _ => false) ⟨"T", [], [], 0, 0⟩
        ⟨"Transform9", "transform9", "VT", some ⟨"Transform9", [], [], false, []⟩⟩
        ⟨[]⟩).1.classCount = 0 + 1)
    ∧ ((populateBuiltinMethods (fun s => s) (fun _ _ => false) ⟨"T", [], [], 0, 0⟩
        ⟨"int", "int", "VT_INT", none⟩ ⟨[]⟩).1 = ⟨"T", [], [], 0, 0⟩) := by
  refine ⟨?_, ?_, ?_, ?_⟩
  · exact (owner_count_increment_amended (fun s => s) (fun _ _ => false) ⟨"T", [], [], 0, 0⟩
      ⟨"Node", .scene, [⟨"_ready", "_ready", .virtualHook⟩]⟩
      ⟨"int", "int", "VT_INT", none⟩ ⟨[]⟩ ⟨[]⟩).1 (by decide)
  · exact ((owner_count_increment_amended (fun s => s) (fun _ _ => false) ⟨"T", [], [], 0, 0⟩
      ⟨"Node", .scene, [⟨"add_child", "add_child", .outbound 3⟩]⟩
      ⟨"int", "int", "VT_INT", none⟩ ⟨[]⟩ ⟨[]⟩).2.1 (by decide)).1
  · exact ((owner_count_increment_amended (fun s => s) (fun _ _ => false) ⟨"T", [], [], 0, 0⟩
      ⟨"Node", .scene, []⟩
      ⟨"Transform9", "transform9", "VT", some ⟨"Transform9", [], [], false, []⟩⟩
      ⟨[]⟩ ⟨[]⟩).2.2.1 ⟨"Transform9", [], [], false, []⟩ rfl).1
  · exact (owner_count_increment_amended (fun s => s) (fun _ _ => false) ⟨"T", [], [], 0, 0⟩
      ⟨"Node", .scene, []⟩ ⟨"int", "int", "VT_INT", none⟩ ⟨[]⟩ ⟨[]⟩).2.2.2 rfl

/-- The extra-constructor loop succeeds exactly when every custom constructor has
at least one parameter. -/
theorem makeExtraConstructorsAux_isSome (snakeOf : String → String) (typeSnake : String) :
    ∀ (i : Nat) (cs : List Constructor),
      (makeExtraConstructorsAux snakeOf typeSnake i cs).isSome
        = cs.all (fun c => !c.rawParameters.isEmpty) := by
  intro i cs
  induction cs generalizing i with
  | nil => rfl
  | cons c rest ih =>
    simp only [makeExtraConstructorsAux, List.all_cons]
    by_cases hc : c.rawParameters.isEmpty
    · simp [hc]
    · rw [if_neg hc]
      have h2 := ih (i + 1)
      cases hrec : makeExtraConstructorsAux snakeOf typeSnake (i + 1) rest with
      | none =>
        have hall : rest.all (fun c => !c.rawParameters.isEmpty) = false := by
          rw [← h2, hrec]; rfl
        simp [hall]
      | some es =>
        have hall : rest.all (fun c => !c.rawParameters.isEmpty) = true := by
          rw [← h2, hrec]; rfl
        simp [hall, Bool.eq_false_iff.mpr hc]

/-- C6: builtin lifecycle construction-entry generation aborts (and only aborts)
when the constructor list is non-empty and violates one of: positions equal
declared indices, the index-0 default constructor has no parameters, the index-1
copy constructor exists with exactly one parameter named "from" of the owner's
type, and every custom constructor (index >= 2) has at least one parameter. -/
theorem make_construct_fns_aborts_iff (snakeOf : String → String)
    (owner typeSnake : String) (ctors : List Constructor) :
    (makeConstructFns snakeOf owner typeSnake ctors).isSome
      = constructChecksOk owner ctors := by
  cases ctors with
  | nil => rfl
  | cons c0 rest0 =>
    simp only [makeConstructFns, constructChecksOk, List.isEmpty_cons, Bool.false_or]
    by_cases h1 : indicesMatchFrom 0 (c0 :: rest0)
    case neg =>
      rw [if_pos (by simpa using h1)]
      simp [Bool.eq_false_iff.mpr h1]
    case pos =>
      rw [if_neg (by simpa using h1)]
      by_cases h2 : c0.rawParameters.isEmpty
      case neg =>
        rw [if_pos (by simpa using h2)]
        simp [h1, Bool.eq_false_iff.mpr h2]
      case pos =>
        rw [if_neg (by simpa using h2)]
        cases rest0 with
        | nil => simp [copyCtorOk, h1, h2]
        | cons c1 rest1 =>
          cases hp : c1.rawParameters with
          | nil => simp [copyCtorOk, h1, h2, hp]
          | cons a args =>
            cases args with
            | nil =>
              by_cases h3 : a.name = "from"
              case neg =>
                simp only [hp]
                rw [if_pos h3]
                simp [copyCtorOk, h1, h2, hp, h3]
              case pos =>
                simp only [hp]
                rw [if_neg (not_not_intro h3)]
                by_cases h4 : a.type_ = owner
                case neg =>
                  rw [if_pos h4]
                  simp [copyCtorOk, h1, h2, hp, h3, h4]
                case pos =>
                  rw [if_neg (not_not_intro h4)]
                  simp [copyCtorOk, h1, h2, hp, h3, h4, Option.isSome_map,
                    makeExtraConstructors, makeExtraConstructorsAux_isSome]
            | cons b args2 =>
              simp [copyCtorOk, h1, h2, hp]

/-- Character data of the underscore-trailing concatenation of names. -/
def trailData : List String → List Char
  | [] => []
  | n :: rest => n.data ++ '_' :: trailData rest

/-- The accumulator fold of make_extra_constructors appends each name plus an
underscore. -/
theorem foldl_names_data (args : List ConstructorArg) : ∀ (acc : String),
    (args.foldl (fun acc arg => acc ++ arg.name ++ "_") acc).data
      = acc.data ++ trailData (args.map ConstructorArg.name) := by
  induction args with
  | nil => intro acc; simp [trailData]
  | cons a args ih =>
    intro acc
    simp only [List.foldl_cons, List.map_cons, trailData]
    rw [ih]
    rw [String.data_append, String.data_append]
    simp

/-- Dropping the final underscore of the trailing form gives the
underscore-separated concatenation. -/
theorem dropLast_trailData : ∀ (ns : List String), ns ≠ [] →
    (trailData ns).dropLast = (concatNames ns).data := by
  intro ns
  induction ns with
  | nil => intro h; exact absurd rfl h
  | cons n rest ih =>
    intro _
    cases rest with
    | nil =>
      show (n.data ++ '_' :: trailData []).dropLast = (concatNames [n]).data
      simp [trailData, concatNames]
    | cons m rest2 =>
      show (n.data ++ '_' :: trailData (m :: rest2)).dropLast
          = (concatNames (n :: m :: rest2)).data
      rw [List.dropLast_append_of_ne_nil _ (by simp)]
      have hne : trailData (m :: rest2) ≠ [] := by
        simp [trailData]
      have hcons : ('_' :: trailData (m :: rest2)).dropLast
          = '_' :: (trailData (m :: rest2)).dropLast := by
        cases htd : trailData (m :: rest2) with
        | nil => exact absurd htd hne
        | cons x xs => rfl
      rw [hcons, ih (by simp)]
      show _ = (n ++ "_" ++ concatNames (m :: rest2)).data
      rw [String.data_append, String.data_append]
      simp

/-- The source's fold-then-pop naming equals the claim's underscore-separated
concatenation of parameter names, for non-empty parameter lists. -/
theorem joinArgNames_eq (args : List ConstructorArg) (h : args ≠ []) :
    joinArgNames args = concatNames (args.map ConstructorArg.name) := by
  apply String.ext
  show (args.foldl (fun acc arg => acc ++ arg.name ++ "_") "").data.dropLast = _
  rw [foldl_names_data args ""]
  show (([] : List Char) ++ trailData (args.map ConstructorArg.name)).dropLast = _
  rw [List.nil_append]
  exact dropLast_trailData _ (by simpa using h)

/-- The generator's extra-constructor name agrees with the claimed naming rule. -/
theorem extraCtorName_eq (snakeOf : String → String) (typeSnake : String)
    (c : Constructor) (h : c.rawParameters ≠ []) :
    extraCtorName snakeOf typeSnake c = claimedExtraName snakeOf typeSnake c := by
  unfold extraCtorName claimedExtraName
  cases hp : c.rawParameters with
  | nil => exact absurd hp h
  | cons a args =>
    cases args with
    | nil =>
      by_cases hn : a.name = "from"
      · simp [hn]
      · simp only [hp]
        rw [if_neg hn, if_neg hn, joinArgNames_eq [a] (by simp)]
    | cons b args2 =>
      simp only [hp]
      rw [joinArgNames_eq (a :: b :: args2) (by simp)]

/-- The extra-constructor loop, when it succeeds, produces exactly the claimed
entries: claimed names, indices equal to declaration positions. -/
theorem makeExtraConstructorsAux_eq (snakeOf : String → String) (typeSnake : String) :
    ∀ (i : Nat) (cs : List Constructor),
      cs.all (fun c => !c.rawParameters.isEmpty) = true →
      makeExtraConstructorsAux snakeOf typeSnake i cs
        = some (claimedExtraEntries snakeOf typeSnake i cs) := by
  intro i cs
  induction cs generalizing i with
  | nil => intro _; rfl
  | cons c rest ih =>
    intro hall
    rw [List.all_cons, Bool.and_eq_true] at hall
    have hc : ¬ c.rawParameters.isEmpty := by
      simpa using hall.1
    simp only [makeExtraConstructorsAux, claimedExtraEntries]
    rw [if_neg hc, ih (i + 1) hall.2]
    rw [extraCtorName_eq snakeOf typeSnake c (by simpa using hc)]

/-- C7: when the sanity checks pass, the construction entries of a builtin with
snake name t are t_construct_default (index 0), t_construct_copy (index 1), and
for each extra constructor at position i >= 2 an entry with resolver index i named
t_from_<source-type snake name> for single-"from"-parameter conversions, else
t_from_<name1>_<name2>_... concatenating all parameter names. -/
theorem construct_entry_names (snakeOf : String → String) (owner typeSnake : String)
    (ctors : List Constructor) (hne : ctors ≠ [])
    (hok : constructChecksOk owner ctors = true) :
    makeConstructFns snakeOf owner typeSnake ctors
      = some (claimedConstructEntries snakeOf typeSnake ctors) := by
  cases ctors with
  | nil => exact absurd rfl hne
  | cons c0 rest0 =>
    simp only [constructChecksOk, List.isEmpty_cons, Bool.false_or,
      Bool.and_eq_true] at hok
    obtain ⟨⟨⟨h1, h2⟩, h3⟩, h4⟩ := hok
    cases rest0 with
    | nil => simp [copyCtorOk] at h3
    | cons c1 rest1 =>
      unfold copyCtorOk at h3
      simp only [List.get?_cons_succ, List.get?_cons_zero] at h3
      cases hp : c1.rawParameters with
      | nil => rw [hp] at h3; simp at h3
      | cons a args =>
        cases args with
        | cons b args2 => rw [hp] at h3; simp at h3
        | nil =>
          rw [hp] at h3
          rw [Bool.and_eq_true] at h3
          have hn : a.name = "from" := by simpa using h3.1
          have ht : a.type_ = owner := by simpa using h3.2
          simp only [makeConstructFns]
          rw [if_neg (by simp [h1]), if_neg (by simp [h2])]
          simp only [hp]
          rw [if_neg (not_not_intro hn), if_neg (not_not_intro ht)]
          unfold makeExtraConstructors
          rw [makeExtraConstructorsAux_eq snakeOf typeSnake 2 _ (by simpa using h4)]
          rfl

/-- Witness for C7, the claim's Scenario B: Vec3 with constructors
[default, copy, from Vec3i] yields vec3_construct_default, vec3_construct_copy and
vec3_from_vec3i, the custom constructor resolved at index 2. -/
theorem construct_entry_names_witness :
    makeConstructFns (fun s => if s = "Vec3i" then "vec3i" else s) "Vec3" "vec3"
        [⟨0, []⟩, ⟨1, [⟨"from", "Vec3"⟩]⟩, ⟨2, [⟨"from", "Vec3i"⟩]⟩]
      = some [⟨"vec3_construct_default", 0⟩, ⟨"vec3_construct_copy", 1⟩,
          ⟨"vec3_from_vec3i", 2⟩] := by
  have h := construct_entry_names (fun s => if s = "Vec3i" then "vec3i" else s)
    "Vec3" "vec3" [⟨0, []⟩, ⟨1, [⟨"from", "Vec3"⟩]⟩, ⟨2, [⟨"from", "Vec3i"⟩]⟩]
    (by simp) (by decide)
  rw [h]
  rfl

/-- C9: whatever fields the builtin lifecycle table ends up containing, its
declared METHOD_COUNT is 0 and its declared CLASS_COUNT is the number of builtin
variants of the API model: the counters are never incremented per member. -/
theorem builtin_lifecycle_counts (snakeOf : String → String)
    (builtins : List BuiltinVariant) (t : NamedMethodTable)
    (h : makeBuiltinLifecycleTable snakeOf builtins = some t) :
    t.methodCount = 0 ∧ t.classCount = builtins.length := by
  unfold makeBuiltinLifecycleTable at h
  cases hm : builtins.mapM (makeVariantFns snakeOf) with
  | none => rw [hm] at h; exact absurd h (by simp)
  | some declss =>
    rw [hm] at h
    have h2 : (⟨"BuiltinLifecycleTable", declss.flatten, builtins.length, 0⟩
        : NamedMethodTable) = t := Option.some.inj h
    rw [← h2]
    exact ⟨rfl, rfl⟩

/-- Witness for C9: a two-variant model (one with an associated class carrying a
destructor and an equality operator but no constructors, one without a class)
yields METHOD_COUNT 0 and CLASS_COUNT 2 despite five emitted fields. -/
theorem builtin_lifecycle_counts_witness :
    (⟨"BuiltinLifecycleTable",
        ["string_name_to_variant", "string_name_from_variant",
          "string_name_operator_equal", "string_name_destroy",
          "int_to_variant", "int_from_variant"], 2, 0⟩ : NamedMethodTable).methodCount = 0
    ∧ (⟨"BuiltinLifecycleTable",
        ["string_name_to_variant", "string_name_from_variant",
          "string_name_operator_equal", "string_name_destroy",
          "int_to_variant", "int_from_variant"], 2, 0⟩ : NamedMethodTable).classCount
      = [(⟨"StringName", "string_name", "VT_SN",
            some ⟨"StringName", [], [], true, [⟨"=="⟩]⟩⟩ : BuiltinVariant),
         ⟨"int", "int", "VT_INT", none⟩].length :=
  builtin_lifecycle_counts (fun s => s)
    [⟨"StringName", "string_name", "VT_SN", some ⟨"StringName", [], [], true, [⟨"=="⟩]⟩⟩,
     ⟨"int", "int", "VT_INT", none⟩]
    ⟨"BuiltinLifecycleTable",
      ["string_name_to_variant", "string_name_from_variant",
        "string_name_operator_equal", "string_name_destroy",
        "int_to_variant", "int_from_variant"], 2, 0⟩
    (by rfl)
